import Mathlib

/-!
# Verification of the `server-back` Express backend (src/index.js)

Shallow embedding of the authentication / resource-ownership core and the
CRUD handlers of the repository's single source file `src/index.js`, together
with proofs settling the frozen claims about it.

Modelling conventions:
* JavaScript strings are Lean `String`s; most string manipulation is done on
  the underlying `List Char` (`String.data`), with `jsSplit` modelling
  JavaScript's `String.prototype.split` on a single-character separator.
* JavaScript truthiness is modelled explicitly: for an optional string field,
  `undefined` and `""` are falsy; for an optional numeric field, `undefined`
  and `0` are falsy.
* MongoDB collections are Lean lists of records; `_id`s are `Nat`s drawn from
  a counter in the store state; single-document writes are list updates.
* `jsonwebtoken`'s `jwt.sign`/`jwt.verify` are modelled by an explicit token
  wire format `"jwt.<id>.<exp>.<sig>.<username>"` where the signature of a
  correctly signed token is abstracted as the signing secret itself (HMAC is
  a black box: a signature checks out iff it was produced with the same
  secret).  Real JWTs base64url-encode their segments, so segments never
  contain `'.'` or `' '`; in this unencoded model that fact becomes explicit
  side conditions (`'.' ∉ secret.data` etc.) on round-trip theorems.
* `bcrypt` is modelled by the wire format `"$2b$10$<salt>$<plaintext>"`:
  hashing is salted and injective in the plaintext, and `bcrypt.compare`
  succeeds exactly on the hashed plaintext.  One-wayness is not modelled
  (no claim needs it); what is modelled is that the stored string is the
  hash, not the plaintext.
* MongoDB `$regex` with `$options: 'i'` is modelled by a small regular
  expression interpreter covering literal characters and the `.` wildcard
  (patterns using other PCRE metacharacters are outside the model and match
  nothing).
-/

namespace ServerBack

/-! ## Decimal digit codec (model of JSON number rendering/parsing) -/

/-- The decimal digit character for `d < 10` (placeholder otherwise). -/
def digitChar : Nat → Char
  | 0 => '0' | 1 => '1' | 2 => '2' | 3 => '3' | 4 => '4'
  | 5 => '5' | 6 => '6' | 7 => '7' | 8 => '8' | 9 => '9'
  | _ => '?'

/-- Inverse of `digitChar` on decimal digit characters, computed from the
code point. -/
def charDigit (c : Char) : Option Nat :=
  if '0'.toNat ≤ c.toNat ∧ c.toNat ≤ '9'.toNat then some (c.toNat - '0'.toNat)
  else none

/-- Decimal rendering, most significant digit first; `fuel` bounds the
recursion depth so the definition is structural (and so kernel-reducible). -/
def natCharsAux : Nat → Nat → List Char
  | 0, _ => []
  | fuel + 1, n =>
    if n < 10 then [digitChar n]
    else natCharsAux fuel (n / 10) ++ [digitChar (n % 10)]

/-- Decimal rendering of a natural number, as a character list. -/
def natChars (n : Nat) : List Char := natCharsAux (n + 1) n

theorem natCharsAux_eq (fuel n : Nat) (h : n < 10 ^ (fuel + 1)) :
    natCharsAux (fuel + 1) n
      = if n = 0 then ['0'] else ((Nat.digits 10 n).reverse).map digitChar := by
  induction fuel generalizing n with
  | zero =>
      have h10 : n < 10 := by simpa using h
      rw [natCharsAux, if_pos h10]
      by_cases h0 : n = 0
      · subst h0; rfl
      · rw [if_neg h0]
        rw [Nat.digits_def' (by norm_num : (1:ℕ) < 10) (Nat.pos_of_ne_zero h0)]
        rw [Nat.div_eq_of_lt h10, Nat.digits_zero, Nat.mod_eq_of_lt h10]
        rfl
  | succ f ih =>
      by_cases hlt : n < 10
      · rw [natCharsAux, if_pos hlt]
        by_cases h0 : n = 0
        · subst h0; rfl
        · rw [if_neg h0]
          rw [Nat.digits_def' (by norm_num : (1:ℕ) < 10) (Nat.pos_of_ne_zero h0)]
          rw [Nat.div_eq_of_lt hlt, Nat.digits_zero, Nat.mod_eq_of_lt hlt]
          rfl
      · push_neg at hlt
        have h0 : n ≠ 0 := by omega
        rw [natCharsAux, if_neg (by omega)]
        have hdiv : n / 10 < 10 ^ (f + 1) := by
          rw [Nat.div_lt_iff_lt_mul (by norm_num)]
          calc n < 10 ^ (f + 2) := h
            _ = 10 ^ (f + 1) * 10 := by ring
        rw [ih _ hdiv, if_neg h0]
        have hd0 : n / 10 ≠ 0 := by omega
        rw [if_neg hd0]
        rw [Nat.digits_def' (by norm_num : (1:ℕ) < 10) (Nat.pos_of_ne_zero h0)]
        simp

theorem natChars_eq (n : Nat) :
    natChars n
      = if n = 0 then ['0'] else ((Nat.digits 10 n).reverse).map digitChar := by
  have hn : n < 10 ^ (n + 1) := by
    calc n < 2 ^ n := Nat.lt_two_pow n
      _ ≤ 10 ^ n := Nat.pow_le_pow_left (by norm_num) n
      _ ≤ 10 ^ (n + 1) := Nat.pow_le_pow_right (by norm_num) (Nat.le_succ n)
  exact natCharsAux_eq n n hn

/-- Decimal parsing of a character list: all characters must be digits and
the list must be nonempty. -/
def decodeNatL (l : List Char) : Option Nat :=
  match l, l.mapM charDigit with
  | [], _ => none
  | _ :: _, some ds => some (Nat.ofDigits 10 ds.reverse)
  | _ :: _, none => none

theorem charDigit_digitChar {d : Nat} (hd : d < 10) :
    charDigit (digitChar d) = some d := by
  interval_cases d <;> rfl

theorem digitChar_ne_dot {d : Nat} (hd : d < 10) : digitChar d ≠ '.' := by
  interval_cases d <;> decide

theorem digitChar_ne_space {d : Nat} (hd : d < 10) : digitChar d ≠ ' ' := by
  interval_cases d <;> decide

theorem digitChar_ne_dollar {d : Nat} (hd : d < 10) : digitChar d ≠ '$' := by
  interval_cases d <;> decide

theorem mem_natChars_ne {n : Nat} {c : Char} (hc : c ∈ natChars n) :
    c ≠ '.' ∧ c ≠ ' ' ∧ c ≠ '$' := by
  rw [natChars_eq] at hc
  split at hc
  · simp only [List.mem_singleton] at hc
    subst hc; refine ⟨by decide, by decide, by decide⟩
  · rcases List.mem_map.mp hc with ⟨d, hdmem, rfl⟩
    have hd : d < 10 :=
      Nat.digits_lt_base (by norm_num) (List.mem_reverse.mp hdmem)
    exact ⟨digitChar_ne_dot hd, digitChar_ne_space hd, digitChar_ne_dollar hd⟩

theorem mapM_charDigit_map_digitChar {l : List Nat} (h : ∀ d ∈ l, d < 10) :
    (l.map digitChar).mapM charDigit = some l := by
  induction l with
  | nil => rfl
  | cons d rest ih =>
      have hd : d < 10 := h d (List.mem_cons_self d rest)
      have hrest := ih fun x hx => h x (List.mem_cons_of_mem d hx)
      simp only [List.map_cons, List.mapM_cons, charDigit_digitChar hd, hrest]
      rfl

theorem decodeNatL_natChars (n : Nat) : decodeNatL (natChars n) = some n := by
  rw [natChars_eq]
  by_cases h0 : n = 0
  · rw [if_pos h0, h0]; rfl
  · have hdig : ∀ d ∈ (Nat.digits 10 n).reverse, d < 10 := fun d hd =>
      Nat.digits_lt_base (by norm_num) (List.mem_reverse.mp hd)
    have hmap := mapM_charDigit_map_digitChar hdig
    have hne : ((Nat.digits 10 n).reverse).map digitChar ≠ [] := by
      simp only [ne_eq, List.map_eq_nil_iff, List.reverse_eq_nil_iff]
      exact Nat.digits_ne_nil_iff_ne_zero.mpr h0
    rw [if_neg h0]
    unfold decodeNatL
    rcases hl : ((Nat.digits 10 n).reverse).map digitChar with _ | ⟨c, cs⟩
    · exact absurd hl hne
    · rw [hl] at hmap
      simp only [hmap, List.reverse_reverse, Nat.ofDigits_digits]

/-! ## JavaScript `String.prototype.split` on a single-character separator -/

/-- `splitChar sep l` splits `l` at every occurrence of `sep`, keeping empty
segments, exactly like JavaScript's `"…".split(sep)`.  The result is always
nonempty. -/
def splitChar (sep : Char) : List Char → List (List Char)
  | [] => [[]]
  | c :: cs =>
    match splitChar sep cs with
    | [] => [[]]
    | h :: t => if c = sep then [] :: h :: t else (c :: h) :: t

theorem splitChar_ne_nil (sep : Char) (l : List Char) : splitChar sep l ≠ [] := by
  induction l with
  | nil => simp [splitChar]
  | cons c cs ih =>
      rcases h : splitChar sep cs with _ | ⟨hd, tl⟩
      · exact absurd h ih
      · simp only [splitChar, h]
        split <;> simp

theorem splitChar_cons_sep (sep : Char) (l : List Char) :
    splitChar sep (sep :: l) = [] :: splitChar sep l := by
  rcases h : splitChar sep l with _ | ⟨hd, tl⟩
  · exact absurd h (splitChar_ne_nil sep l)
  · simp [splitChar, h]

theorem splitChar_cons_ne {sep c : Char} (hc : c ≠ sep) (l : List Char)
    {hd : List Char} {tl : List (List Char)} (h : splitChar sep l = hd :: tl) :
    splitChar sep (c :: l) = (c :: hd) :: tl := by
  simp [splitChar, h, hc]

theorem splitChar_append_of_not_mem {sep : Char} {a : List Char}
    (ha : sep ∉ a) (b : List Char) {hd : List Char} {tl : List (List Char)}
    (hb : splitChar sep b = hd :: tl) :
    splitChar sep (a ++ b) = (a ++ hd) :: tl := by
  induction a with
  | nil => simpa using hb
  | cons c cs ih =>
      have hc : c ≠ sep := fun h => ha (h ▸ List.mem_cons_self c cs)
      have hcs : sep ∉ cs := fun h => ha (List.mem_cons_of_mem c h)
      have := splitChar_cons_ne hc (cs ++ b) (ih hcs)
      simpa using this

theorem splitChar_of_not_mem {sep : Char} {a : List Char} (ha : sep ∉ a) :
    splitChar sep a = [a] := by
  have : splitChar sep (a ++ ([] : List Char)) = (a ++ []) :: [] :=
    splitChar_append_of_not_mem ha [] rfl
  simpa using this

theorem splitChar_sep_append {sep : Char} {a : List Char} (ha : sep ∉ a)
    (b : List Char) :
    splitChar sep (a ++ sep :: b) = a :: splitChar sep b := by
  rcases hb : splitChar sep b with _ | ⟨hd, tl⟩
  · exact absurd hb (splitChar_ne_nil sep b)
  · have hsb : splitChar sep (sep :: b) = [] :: hd :: tl := by
      rw [splitChar_cons_sep, hb]
    have := splitChar_append_of_not_mem ha (sep :: b) hsb
    simpa using this

/-- Rejoin the segments produced by `splitChar`, with the separator between
consecutive segments. -/
def joinSep (sep : Char) : List (List Char) → List Char
  | [] => []
  | [a] => a
  | a :: rest => a ++ sep :: joinSep sep rest

theorem joinSep_cons_cons (sep : Char) (a b : List Char)
    (t : List (List Char)) :
    joinSep sep (a :: b :: t) = a ++ sep :: joinSep sep (b :: t) := rfl

theorem joinSep_splitChar (sep : Char) (l : List Char) :
    joinSep sep (splitChar sep l) = l := by
  induction l with
  | nil => rfl
  | cons c cs ih =>
      rcases h : splitChar sep cs with _ | ⟨hd, tl⟩
      · exact absurd h (splitChar_ne_nil sep cs)
      · by_cases hc : c = sep
        · subst hc
          rw [splitChar_cons_sep, h, joinSep_cons_cons, List.nil_append, ← h, ih]
        · rw [splitChar_cons_ne hc cs h]
          rcases tl with _ | ⟨b, t⟩
          · rw [h] at ih
            simpa [joinSep] using congrArg (c :: ·) ih
          · rw [joinSep_cons_cons]
            rw [h, joinSep_cons_cons] at ih
            simpa using congrArg (c :: ·) ih

/-! ## bcrypt model (`hashPassword`, `bcrypt.compare`)

`hashPassword` (src/index.js:65-68) calls `bcrypt.hash(password, 10)`.  The
hash wire format is modelled as `"$2b$10$<salt>$<plaintext>"`; `compare`
re-derives the digest from the embedded salt and the candidate, i.e. here it
checks that the candidate equals the embedded plaintext.  `compare` returns
`false` (never throws) on malformed stored hashes. -/

def bcryptHash (salt : Nat) (plaintext : String) : String :=
  String.mk ('$' :: "2b".data ++ '$' :: "10".data ++ '$' :: natChars salt
    ++ '$' :: plaintext.data)

def bcryptCompare (candidate hash : String) : Bool :=
  match splitChar '$' hash.data with
  | [] :: b :: v :: saltCs :: rest =>
    if b = "2b".data ∧ v = "10".data then
      match decodeNatL saltCs, rest with
      | some _, _ :: _ => joinSep '$' rest = candidate.data
      | _, _ => false
    else false
  | _ => false

/-! ## JWT model (`generateToken`, `jwt.verify`, `authenticateToken`)

`generateToken` (src/index.js:56-62) signs `{id, username}` with
`process.env.JWT_SECRET` and `expiresIn: "1h"`.  Token wire format:
`"jwt.<id>.<exp>.<sig>.<username>"`, the signature of an honestly signed
token abstracted as the signing secret (HMAC black box). -/

/-- The claims recovered from a verified token. -/
structure Claims where
  id : Nat
  username : String
deriving DecidableEq

def signToken (secret : String) (id exp : Nat) (username : String) : String :=
  String.mk ("jwt".data ++ '.' :: natChars id ++ '.' :: natChars exp
    ++ '.' :: secret.data ++ '.' :: username.data)

/-- `generateToken` from src/index.js:56-62: payload `{id, username}`, expiry
one hour (3600 s) after issuance. -/
def generateToken (u_id : Nat) (username : String) (secret : String)
    (now : Nat) : String :=
  signToken secret u_id (now + 3600) username

/-- `jwt.verify(token, secret)` at clock time `now`: parse the token, check
the signature against `secret` and that the expiry has not passed; on
success recover the embedded claims, otherwise fail. -/
def jwtVerify (token secret : String) (now : Nat) : Option Claims :=
  match splitChar '.' token.data with
  | hd :: idCs :: expCs :: sigCs :: rest =>
    if hd = "jwt".data then
      match decodeNatL idCs, decodeNatL expCs with
      | some i, some exp =>
        if sigCs = secret.data ∧ now < exp then
          some ⟨i, String.mk (joinSep '.' rest)⟩
        else none
      | _, _ => none
    else none
  | _ => none

/-- Outcome of the `authenticateToken` middleware (src/index.js:180-189). -/
inductive AuthResult where
  | unauth                 -- `res.sendStatus(401)`
  | forbidden              -- `res.sendStatus(403)`
  | ok (claims : Claims)   -- `req.user = user; next()`
deriving DecidableEq

/-- `req.headers["authorization"]?.split(" ")[1]`, with JavaScript's
falsiness of `undefined` and `""`. -/
def bearerToken (header : Option String) : Option String :=
  match header with
  | none => none
  | some h =>
    match (splitChar ' ' h.data).get? 1 with
    | none => none
    | some t => if t = [] then none else some (String.mk t)

/-- `authenticateToken` middleware: no (truthy) token → 401; token present
but failing `jwt.verify` → 403; otherwise the verified claims are attached
to the request and the handler runs. -/
def authenticateToken (header : Option String) (secret : String) (now : Nat) :
    AuthResult :=
  match bearerToken header with
  | none => .unauth
  | some tok =>
    match jwtVerify tok secret now with
    | none => .forbidden
    | some u => .ok u

/-! ## Data model (mongoose schemas) and store state -/

structure UserRec where
  _id : Nat
  username : String
  email : String
  password : String
  profileImage : Option String
deriving DecidableEq

structure ProductRec where
  _id : Nat
  name : String
  price : Int
  category : String
  description : String
  image : Option String
deriving DecidableEq

structure OrderRec where
  _id : Nat
  productId : Nat
  userId : Nat
  quantity : Int
  status : String
  createdAt : Nat
deriving DecidableEq

/-- The MongoDB state: one collection per model plus a fresh-`_id` counter. -/
structure DB where
  users : List UserRec
  products : List ProductRec
  orders : List OrderRec
  nextId : Nat
deriving DecidableEq

/-- The `status` enum of the order schema (src/index.js:309). -/
def orderStatuses : List String := ["pending", "completed", "canceled"]

/-- JavaScript `x || old` for an optional string field (`undefined` and `""`
are falsy). -/
def jsOrS : Option String → String → String
  | some s, old => if s = "" then old else s
  | none, old => old

/-- JavaScript `x || old` for an optional numeric field (`undefined` and `0`
are falsy). -/
def jsOrI : Option Int → Int → Int
  | some n, old => if n = 0 then old else n
  | none, old => old

/-! ## User routes -/

/-- A JSON value as rendered by `res.json` (only the shapes the user schema
needs). -/
inductive JVal where
  | str (s : String)
  | num (n : Int)
  | null
deriving DecidableEq

/-- `res.json(user)` serializes every schema field of the document, the
password hash included. -/
def serializeUser (u : UserRec) : List (String × JVal) :=
  [("_id", .num (u._id : Int)),
   ("username", .str u.username),
   ("email", .str u.email),
   ("password", .str u.password),
   ("profileImage", match u.profileImage with | some f => .str f | none => .null)]

structure RegisterBody where
  username : String
  email : String
  password : String
  profileImage : Option String   -- `req.file ? req.file.filename : null`

/-- `POST /api/users/register` (src/index.js:71-89).  `salt` is the random
salt bcrypt draws for this call. -/
def register (body : RegisterBody) (salt : Nat) (db : DB) :
    (Nat × String) × DB :=
  if db.users.any (fun u => u.username == body.username || u.email == body.email)
  then ((400, "Username or email already exists"), db)
  else
    let newUser : UserRec :=
      ⟨db.nextId, body.username, body.email, bcryptHash salt body.password,
        body.profileImage⟩
    ((201, "User registered successfully"),
      { db with users := db.users ++ [newUser], nextId := db.nextId + 1 })

/-- `GET /api/users` (src/index.js:92-99): all user records, serialized in
full. -/
def usersIndex (db : DB) : Nat × List (List (String × JVal)) :=
  (200, db.users.map serializeUser)

/-- `GET /api/users/:_id` (src/index.js:101-109). -/
def userShow (id : Nat) (db : DB) : Nat × Option (List (String × JVal)) :=
  match db.users.find? (fun u => u._id == id) with
  | none => (404, none)
  | some u => (200, some (serializeUser u))

structure UserUpdateBody where
  username : Option String
  email : Option String
  password : Option String
  file : Option String           -- `req.file ? req.file.filename : null`

/-- The mutation block of the user-update handler (src/index.js:121-136):
`||`-merge of username and email, re-hash of a (truthy) supplied password,
image replacement when a file was uploaded. -/
def mergeUser (u : UserRec) (body : UserUpdateBody) (salt : Nat) : UserRec :=
  let u1 := { u with
    username := jsOrS body.username u.username,
    email := jsOrS body.email u.email }
  let u2 := match body.password with
    | some pw => if pw = "" then u1 else { u1 with password := bcryptHash salt pw }
    | none => u1
  match body.file with
  | some f => { u2 with profileImage := some f }
  | none => u2

/-- `PUT /api/users/:_id` (src/index.js:112-144): merge the supplied fields
into the found record.  A write that would violate the unique index on
username/email is rejected by the store and surfaces through the catch-all
as a 500. -/
def usersUpdate (id : Nat) (body : UserUpdateBody) (salt : Nat) (db : DB) :
    (Nat × Option UserRec) × DB :=
  match db.users.find? (fun u => u._id == id) with
  | none => ((404, none), db)
  | some u =>
    if db.users.any (fun v =>
        v._id != id && (v.username == (mergeUser u body salt).username
          || v.email == (mergeUser u body salt).email))
    then ((500, none), db)
    else ((200, some (mergeUser u body salt)),
      { db with
          users := db.users.map fun v =>
            if v._id == id then mergeUser u body salt else v })

/-- `POST /api/users/login` (src/index.js:162-177). -/
def login (email password : String) (secret : String) (now : Nat) (db : DB) :
    Nat × String × Option String :=
  match db.users.find? (fun u => u.email == email) with
  | none => (400, "Invalid email or password", none)
  | some u =>
    if bcryptCompare password u.password then
      (200, "Login successful", some (generateToken u._id u.username secret now))
    else (400, "Invalid email or password", none)

/-! ## MongoDB `$regex` model and product routes -/

/-- One compiled regular-expression item: a literal character or the `.`
wildcard. -/
inductive RItem where
  | lit (c : Char)
  | dot
deriving DecidableEq

/-- PCRE metacharacters other than `.`; patterns using them are outside this
model. -/
def rxMeta : List Char :=
  ['\\', '^', '$', '*', '+', '?', '(', ')', '[', ']', '|',
    Char.ofNat 123, Char.ofNat 125]

/-- Compile a pattern string into items; `none` on unsupported
metacharacters. -/
def rxCompile : List Char → Option (List RItem)
  | [] => some []
  | c :: cs =>
    if c = '.' then (rxCompile cs).map (RItem.dot :: ·)
    else if c ∈ rxMeta then none
    else (rxCompile cs).map (RItem.lit c :: ·)

/-- Case-insensitive item match (`$options: 'i'`); PCRE `.` matches any
character but a newline. -/
def rxMatchItem : RItem → Char → Bool
  | .lit c, d => c.toLower == d.toLower
  | .dot, d => d != '\n'

def rxMatchPrefix : List RItem → List Char → Bool
  | [], _ => true
  | _ :: _, [] => false
  | i :: is, c :: cs => rxMatchItem i c && rxMatchPrefix is cs

/-- Unanchored search: the items match at some position of the text. -/
def rxSearch (items : List RItem) : List Char → Bool
  | [] => rxMatchPrefix items []
  | c :: cs => rxMatchPrefix items (c :: cs) || rxSearch items cs

/-- `{ name: { $regex: pattern, $options: 'i' } }` applied to `text`. -/
def mongoRegexMatchI (pattern text : String) : Bool :=
  match rxCompile pattern.data with
  | some items => rxSearch items text.data
  | none => false

/-- `GET /api/products` (src/index.js:236-245): `query ? {name: {$regex:
query, $options: 'i'}} : {}`. -/
def productsIndex (query : Option String) (db : DB) : Nat × List ProductRec :=
  match query with
  | none => (200, db.products)
  | some q =>
    if q = "" then (200, db.products)
    else (200, db.products.filter (fun p => mongoRegexMatchI q p.name))

structure ProductUpdateBody where
  name : Option String
  price : Option Int
  category : Option String
  description : Option String
  image : Option String          -- `req.file ? req.file.filename : null`

/-- The mutation block of the product-update handler (src/index.js:267-280):
`||`-merge of the four scalar fields, image replacement when a file was
uploaded. -/
def mergeProduct (p : ProductRec) (body : ProductUpdateBody) : ProductRec :=
  let p1 := { p with
    name := jsOrS body.name p.name,
    price := jsOrI body.price p.price,
    category := jsOrS body.category p.category,
    description := jsOrS body.description p.description }
  match body.image with
  | some f => { p1 with image := some f }
  | none => p1

/-- `PUT /api/products/:_id` (src/index.js:259-287): merge the supplied
fields into the found record. -/
def productsUpdate (id : Nat) (body : ProductUpdateBody) (db : DB) :
    (Nat × Option ProductRec) × DB :=
  match db.products.find? (fun p => p._id == id) with
  | none => ((404, none), db)
  | some p =>
    ((200, some (mergeProduct p body)),
      { db with
          products := db.products.map fun q =>
            if q._id == id then mergeProduct p body else q })

/-! ## Order routes (all behind `authenticateToken`) -/

structure OrderCreateBody where
  productId : Option Nat
  quantity : Option Int
  userId : Option Nat   -- a client-supplied userId; the handler never reads it

/-- `POST /api/orders` (src/index.js:316-331): `userId` is taken from
`req.user.id`; a missing required field makes the save fail with 400. -/
def ordersCreate (header : Option String) (secret : String) (now : Nat)
    (body : OrderCreateBody) (db : DB) : (Nat × Option OrderRec) × DB :=
  match authenticateToken header secret now with
  | .unauth => ((401, none), db)
  | .forbidden => ((403, none), db)
  | .ok claims =>
    match body.productId, body.quantity with
    | some pid, some q =>
      let o : OrderRec := ⟨db.nextId, pid, claims.id, q, "pending", now⟩
      ((201, some o), { db with orders := db.orders ++ [o], nextId := db.nextId + 1 })
    | _, _ => ((400, none), db)

/-- An order with its `productId` expanded by `.populate("productId")`
(`none` when the reference does not resolve). -/
structure PopulatedOrder where
  _id : Nat
  product : Option ProductRec
  userId : Nat
  quantity : Int
  status : String
  createdAt : Nat
deriving DecidableEq

def populateOrder (products : List ProductRec) (o : OrderRec) : PopulatedOrder :=
  ⟨o._id, products.find? (fun p => p._id == o.productId), o.userId, o.quantity,
    o.status, o.createdAt⟩

/-- `GET /api/orders` (src/index.js:334-341):
`Order.find({userId: req.user.id}).populate("productId")`. -/
def ordersIndex (header : Option String) (secret : String) (now : Nat)
    (db : DB) : (Nat × Option (List PopulatedOrder)) × DB :=
  match authenticateToken header secret now with
  | .unauth => ((401, none), db)
  | .forbidden => ((403, none), db)
  | .ok claims =>
    ((200, some ((db.orders.filter (fun o => o.userId == claims.id)).map
      (populateOrder db.products))), db)

/-- `GET /api/orders/:id` (src/index.js:344-352). -/
def ordersShow (header : Option String) (secret : String) (now : Nat)
    (id : Nat) (db : DB) : (Nat × Option PopulatedOrder) × DB :=
  match authenticateToken header secret now with
  | .unauth => ((401, none), db)
  | .forbidden => ((403, none), db)
  | .ok _ =>
    match db.orders.find? (fun o => o._id == id) with
    | none => ((404, none), db)
    | some o => ((200, some (populateOrder db.products o)), db)

structure OrderUpdateBody where
  quantity : Option Int
  status : Option String

/-- `PUT /api/orders/:id` (src/index.js:355-370): `if (quantity) …; if
(status) …`, then a save that enforces the status enum (400 on violation). -/
def ordersUpdate (header : Option String) (secret : String) (now : Nat)
    (id : Nat) (body : OrderUpdateBody) (db : DB) :
    (Nat × Option OrderRec) × DB :=
  match authenticateToken header secret now with
  | .unauth => ((401, none), db)
  | .forbidden => ((403, none), db)
  | .ok _ =>
    match db.orders.find? (fun o => o._id == id) with
    | none => ((404, none), db)
    | some o =>
      let o1 := { o with
        quantity := jsOrI body.quantity o.quantity,
        status := jsOrS body.status o.status }
      if orderStatuses.contains o1.status then
        ((200, some o1),
          { db with orders := db.orders.map (fun x => if x._id == id then o1 else x) })
      else ((400, none), db)

/-- `DELETE /api/orders/:id` (src/index.js:373-381). -/
def ordersDelete (header : Option String) (secret : String) (now : Nat)
    (id : Nat) (db : DB) : (Nat × Option String) × DB :=
  match authenticateToken header secret now with
  | .unauth => ((401, none), db)
  | .forbidden => ((403, none), db)
  | .ok _ =>
    match db.orders.find? (fun o => o._id == id) with
    | none => ((404, none), db)
    | some _ =>
      ((200, some "Order deleted successfully"),
        { db with orders := db.orders.eraseP (fun o => o._id == id) })

/-! ## Lemmas about the token wire format -/

theorem mk_data (s : String) : String.mk s.data = s := by
  rcases s with ⟨d⟩
  rfl

theorem dot_not_mem_natChars (n : Nat) : '.' ∉ natChars n :=
  fun h => (mem_natChars_ne h).1 rfl

theorem space_not_mem_natChars (n : Nat) : ' ' ∉ natChars n :=
  fun h => (mem_natChars_ne h).2.1 rfl

theorem signToken_data (secret : String) (id exp : Nat) (username : String) :
    (signToken secret id exp username).data
      = "jwt".data ++ '.' :: (natChars id ++ '.' :: (natChars exp
          ++ '.' :: (secret.data ++ '.' :: username.data))) := by
  simp [signToken]

theorem splitChar_dot_signToken (secret : String) (id exp : Nat)
    (username : String) (hs : '.' ∉ secret.data) :
    splitChar '.' (signToken secret id exp username).data
      = "jwt".data :: natChars id :: natChars exp :: secret.data
          :: splitChar '.' username.data := by
  rw [signToken_data]
  rw [splitChar_sep_append (by decide)]
  rw [splitChar_sep_append (dot_not_mem_natChars id)]
  rw [splitChar_sep_append (dot_not_mem_natChars exp)]
  rw [splitChar_sep_append hs]

theorem signToken_data_ne_nil (secret : String) (id exp : Nat)
    (username : String) : (signToken secret id exp username).data ≠ [] := by
  rw [signToken_data]
  simp

theorem space_not_mem_signToken_data (secret : String) (id exp : Nat)
    (username : String) (hs : ' ' ∉ secret.data) (hu : ' ' ∉ username.data) :
    ' ' ∉ (signToken secret id exp username).data := by
  intro h
  rw [signToken_data] at h
  rcases List.mem_append.mp h with h | h
  · revert h; decide
  rcases List.mem_cons.mp h with h | h
  · exact absurd h (by decide)
  rcases List.mem_append.mp h with h | h
  · exact space_not_mem_natChars id h
  rcases List.mem_cons.mp h with h | h
  · exact absurd h (by decide)
  rcases List.mem_append.mp h with h | h
  · exact space_not_mem_natChars exp h
  rcases List.mem_cons.mp h with h | h
  · exact absurd h (by decide)
  rcases List.mem_append.mp h with h | h
  · exact hs h
  rcases List.mem_cons.mp h with h | h
  · exact absurd h (by decide)
  · exact hu h

theorem bearerToken_bearer (tok : String) (hsp : ' ' ∉ tok.data)
    (hne : tok.data ≠ []) :
    bearerToken (some ("Bearer " ++ tok)) = some tok := by
  have hdata : ("Bearer " ++ tok).data = "Bearer".data ++ ' ' :: tok.data := by
    simp [String.data_append]
  have hsplit : splitChar ' ' ("Bearer " ++ tok).data
      = "Bearer".data :: splitChar ' ' tok.data := by
    rw [hdata, splitChar_sep_append (by decide)]
  rw [bearerToken, hsplit, splitChar_of_not_mem hsp]
  simp [hne, mk_data]

/-- `jwt.verify` on an honestly signed token: succeeds with the original
claims exactly when the expiry has not passed. -/
theorem jwtVerify_signToken (secret : String) (uid exp : Nat)
    (username : String) (now : Nat) (hs : '.' ∉ secret.data) :
    jwtVerify (signToken secret uid exp username) secret now
      = if now < exp then some ⟨uid, username⟩ else none := by
  rw [jwtVerify, splitChar_dot_signToken secret uid exp username hs]
  simp only [decodeNatL_natChars, if_pos rfl]
  by_cases h : now < exp
  · simp [h, joinSep_splitChar, mk_data]
  · simp [h]

/-! ## Claim theorems -/

/-- C1: for every request to any of the five `/api/orders` endpoints, a
request carrying no bearer token gets status 401, a request carrying a token
that fails verification (invalid signature or expired) gets status 403; in
both cases the handler body is never reached (no payload, store untouched),
and the two failure statuses are distinct. -/
theorem claim_C1_orders_auth_gate (header : Option String) (secret : String)
    (now : Nat) (cb : OrderCreateBody) (ub : OrderUpdateBody) (id : Nat)
    (db : DB) :
    (bearerToken header = none →
      ordersCreate header secret now cb db = ((401, none), db) ∧
      ordersIndex header secret now db = ((401, none), db) ∧
      ordersShow header secret now id db = ((401, none), db) ∧
      ordersUpdate header secret now id ub db = ((401, none), db) ∧
      ordersDelete header secret now id db = ((401, none), db)) ∧
    (∀ tok, bearerToken header = some tok → jwtVerify tok secret now = none →
      ordersCreate header secret now cb db = ((403, none), db) ∧
      ordersIndex header secret now db = ((403, none), db) ∧
      ordersShow header secret now id db = ((403, none), db) ∧
      ordersUpdate header secret now id ub db = ((403, none), db) ∧
      ordersDelete header secret now id db = ((403, none), db)) ∧
    (401 : Nat) ≠ 403 := by
  refine ⟨fun h => ?_, fun tok h1 h2 => ?_, by decide⟩
  · have ha : authenticateToken header secret now = .unauth := by
      simp only [authenticateToken, h]
    simp [ordersCreate, ordersIndex, ordersShow, ordersUpdate, ordersDelete, ha]
  · have ha : authenticateToken header secret now = .forbidden := by
      simp only [authenticateToken, h1, h2]
    simp [ordersCreate, ordersIndex, ordersShow, ordersUpdate, ordersDelete, ha]

theorem claim_C1_orders_auth_gate_witness :
    ordersCreate none "secret" 0 ⟨some 1, some 2, none⟩ ⟨[], [], [], 0⟩
      = ((401, none), ⟨[], [], [], 0⟩) ∧
    ordersIndex (some "Bearer bogus") "secret" 0 ⟨[], [], [], 0⟩
      = ((403, none), ⟨[], [], [], 0⟩) := by
  constructor
  · exact ((claim_C1_orders_auth_gate none "secret" 0 ⟨some 1, some 2, none⟩
      ⟨none, none⟩ 0 ⟨[], [], [], 0⟩).1 rfl).1
  · exact ((claim_C1_orders_auth_gate (some "Bearer bogus") "secret" 0
      ⟨some 1, some 2, none⟩ ⟨none, none⟩ 0 ⟨[], [], [], 0⟩).2.1 "bogus"
      (by decide) (by decide)).2.1

/-- C3: a token issued for identity U verifies, before its 1-hour expiry
horizon, to exactly U's id and username; verified after the horizon it fails,
and through the middleware that failure is the forbidden kind (403-mapped),
not the unauthenticated kind. -/
theorem claim_C3_token_roundtrip (uid : Nat) (username secret : String)
    (issuedAt verifyAt : Nat) (db : DB)
    (hdot : '.' ∉ secret.data) (hsp : ' ' ∉ secret.data)
    (husp : ' ' ∉ username.data) :
    (verifyAt < issuedAt + 3600 →
      jwtVerify (generateToken uid username secret issuedAt) secret verifyAt
        = some ⟨uid, username⟩) ∧
    (issuedAt + 3600 ≤ verifyAt →
      jwtVerify (generateToken uid username secret issuedAt) secret verifyAt
        = none ∧
      authenticateToken
        (some ("Bearer " ++ generateToken uid username secret issuedAt))
        secret verifyAt = .forbidden ∧
      (ordersIndex
        (some ("Bearer " ++ generateToken uid username secret issuedAt))
        secret verifyAt db).1.1 = 403 ∧
      AuthResult.forbidden ≠ AuthResult.unauth) := by
  have hver := jwtVerify_signToken secret uid (issuedAt + 3600) username
    verifyAt hdot
  constructor
  · intro hlt
    rw [generateToken, hver, if_pos hlt]
  · intro hge
    have hnone : jwtVerify (generateToken uid username secret issuedAt) secret
        verifyAt = none := by
      rw [generateToken, hver, if_neg (by omega)]
    have hbear := bearerToken_bearer (generateToken uid username secret issuedAt)
      (space_not_mem_signToken_data secret uid (issuedAt + 3600) username hsp husp)
      (signToken_data_ne_nil secret uid (issuedAt + 3600) username)
    have hauth : authenticateToken
        (some ("Bearer " ++ generateToken uid username secret issuedAt))
        secret verifyAt = .forbidden := by
      simp only [authenticateToken, hbear, hnone]
    refine ⟨hnone, hauth, ?_, by decide⟩
    simp [ordersIndex, hauth]

theorem claim_C3_token_roundtrip_witness :
    jwtVerify (generateToken 1 "alice" "s" 0) "s" 5 = some ⟨1, "alice"⟩ ∧
    authenticateToken (some ("Bearer " ++ generateToken 1 "alice" "s" 0)) "s"
      3600 = .forbidden := by
  constructor
  · exact (claim_C3_token_roundtrip 1 "alice" "s" 0 5 ⟨[], [], [], 0⟩
      (by decide) (by decide) (by decide)).1 (by omega)
  · exact ((claim_C3_token_roundtrip 1 "alice" "s" 0 3600 ⟨[], [], [], 0⟩
      (by decide) (by decide) (by decide)).2 (by omega)).2.1

/-- C2: a created order's user reference is the authenticated caller's token
id; a client-supplied `userId` body field never influences creation; and an
order update writes at most `quantity` and `status` — `_id`, `productId`,
`userId` and `createdAt` of every stored order survive any update call
unchanged. -/
theorem claim_C2_order_owner_fixed (header : Option String) (secret : String)
    (now : Nat) (db : DB) (c : Claims)
    (hauth : authenticateToken header secret now = .ok c) :
    (∀ (body : OrderCreateBody) (st : Nat) (o : OrderRec) (db' : DB),
      ordersCreate header secret now body db = ((st, some o), db') →
      o.userId = c.id) ∧
    (∀ (body : OrderCreateBody) (u1 u2 : Option Nat),
      ordersCreate header secret now { body with userId := u1 } db
        = ordersCreate header secret now { body with userId := u2 } db) ∧
    (∀ (id : Nat) (body : OrderUpdateBody) (resp : Nat × Option OrderRec)
        (db' : DB),
      ordersUpdate header secret now id body db = (resp, db') →
      ∀ o' ∈ db'.orders, ∃ o ∈ db.orders,
        o'._id = o._id ∧ o'.userId = o.userId ∧ o'.productId = o.productId ∧
        o'.createdAt = o.createdAt) := by
  refine ⟨?_, ?_, ?_⟩
  · intro body st o db' h
    rcases hp : body.productId with _ | pid <;>
      rcases hq : body.quantity with _ | q <;>
        simp only [ordersCreate, hauth, hp, hq] at h <;>
          simp only [Prod.mk.injEq] at h
    · exact absurd h.1.2 (by simp)
    · exact absurd h.1.2 (by simp)
    · exact absurd h.1.2 (by simp)
    · obtain ⟨⟨-, ho⟩, -⟩ := h
      obtain rfl := Option.some.injEq .. ▸ ho
      rfl
  · intro body u1 u2
    rfl
  · intro id body resp db' h
    rcases hf : db.orders.find? (fun o => o._id == id) with _ | o0
    · simp only [ordersUpdate, hauth, hf] at h
      cases h
      intro o' ho'
      exact ⟨o', ho', rfl, rfl, rfl, rfl⟩
    · have ho0 : o0 ∈ db.orders := List.mem_of_find?_eq_some hf
      simp only [ordersUpdate, hauth, hf] at h
      split at h
      · cases h
        intro o' ho'
        rcases List.mem_map.mp ho' with ⟨x, hx, rfl⟩
        by_cases hid : (x._id == id) = true
        · exact ⟨o0, ho0, by simp [hid], by simp [hid], by simp [hid],
            by simp [hid]⟩
        · have hid' : (x._id == id) = false := by simpa using hid
          exact ⟨x, hx, by simp [hid'], by simp [hid'], by simp [hid'],
            by simp [hid']⟩
      · cases h
        intro o' ho'
        exact ⟨o', ho', rfl, rfl, rfl, rfl⟩

theorem claim_C2_order_owner_fixed_witness :
    (⟨5, 3, 7, 2, "pending", 1⟩ : OrderRec).userId = 7 :=
  (claim_C2_order_owner_fixed
      (some ("Bearer " ++ generateToken 7 "bob" "s" 0)) "s" 1
      ⟨[], [], [], 5⟩ ⟨7, "bob"⟩ (by decide)).1
    ⟨some 3, some 2, some 99⟩ 201 ⟨5, 3, 7, 2, "pending", 1⟩
    ⟨[], [], [⟨5, 3, 7, 2, "pending", 1⟩], 6⟩ (by decide)

/-- C4: registering a user whose username and email are both fresh succeeds
with 201 and adds exactly one record (so exactly one record carries that
email); a second registration reusing the email or the username fails with
400 and leaves the store unchanged. -/
theorem claim_C4_register_unique (body : RegisterBody) (salt : Nat) (db : DB)
    (hfresh : ∀ u ∈ db.users,
      u.username ≠ body.username ∧ u.email ≠ body.email) :
    (register body salt db).1 = (201, "User registered successfully") ∧
    (register body salt db).2.users.length = db.users.length + 1 ∧
    ((register body salt db).2.users.filter
      (fun u => u.email == body.email)).length = 1 ∧
    (∀ (body2 : RegisterBody) (salt2 : Nat),
      body2.email = body.email ∨ body2.username = body.username →
      register body2 salt2 (register body salt db).2
        = ((400, "Username or email already exists"),
            (register body salt db).2)) := by
  have hany : db.users.any
      (fun u => u.username == body.username || u.email == body.email)
        = false := by
    rw [List.any_eq_false]
    intro u hu
    simp [(hfresh u hu).1, (hfresh u hu).2]
  have hfilter : db.users.filter (fun u => u.email == body.email) = [] := by
    rw [List.filter_eq_nil_iff]
    intro u hu
    simp [(hfresh u hu).2]
  rw [register, if_neg (by simp [hany])]
  refine ⟨rfl, by simp, ?_, ?_⟩
  · simp [List.filter_append, hfilter]
  · intro body2 salt2 hdup
    rw [register]
    rw [if_pos ?dup]
    case dup =>
      simp only [List.any_append, List.any_cons, List.any_nil, Bool.or_false,
        Bool.or_eq_true, List.any_eq_true]
      right
      rcases hdup with h | h
      · right; simp [h]
      · left; simp [h]

theorem claim_C4_register_unique_witness :
    (register ⟨"alice", "a@x.com", "pw1", none⟩ 3 ⟨[], [], [], 0⟩).1
      = (201, "User registered successfully") ∧
    register ⟨"bob", "a@x.com", "pw2", none⟩ 4
        (register ⟨"alice", "a@x.com", "pw1", none⟩ 3 ⟨[], [], [], 0⟩).2
      = ((400, "Username or email already exists"),
          (register ⟨"alice", "a@x.com", "pw1", none⟩ 3 ⟨[], [], [], 0⟩).2) := by
  have h := claim_C4_register_unique ⟨"alice", "a@x.com", "pw1", none⟩ 3
    ⟨[], [], [], 0⟩ (by intro u hu; simp at hu)
  exact ⟨h.1, h.2.2.2 ⟨"bob", "a@x.com", "pw2", none⟩ 4 (Or.inl rfl)⟩

/-- C5: listing orders as authenticated caller U returns, with status 200
and the store untouched, exactly the orders whose user reference is U's id,
each with its product reference expanded; an order whose user reference is a
different identity never appears in the listing. -/
theorem claim_C5_orders_scoped (header : Option String) (secret : String)
    (now : Nat) (db : DB) (c : Claims)
    (hauth : authenticateToken header secret now = .ok c) :
    (ordersIndex header secret now db).2 = db ∧
    (ordersIndex header secret now db).1.1 = 200 ∧
    ∀ l, (ordersIndex header secret now db).1.2 = some l →
      (∀ po, po ∈ l ↔ ∃ o ∈ db.orders,
        o.userId = c.id ∧ po = populateOrder db.products o) ∧
      (∀ o ∈ db.orders, o.userId ≠ c.id → populateOrder db.products o ∉ l) := by
  refine ⟨by simp [ordersIndex, hauth], by simp [ordersIndex, hauth], ?_⟩
  intro l hl
  simp only [ordersIndex, hauth] at hl
  obtain rfl := (Option.some.injEq .. ).mp hl
  have hmem : ∀ po,
      po ∈ (db.orders.filter (fun o => o.userId == c.id)).map
        (populateOrder db.products)
        ↔ ∃ o ∈ db.orders, o.userId = c.id ∧ po = populateOrder db.products o := by
    intro po
    constructor
    · intro hpo
      rcases List.mem_map.mp hpo with ⟨o, ho, rfl⟩
      rcases List.mem_filter.mp ho with ⟨ho1, ho2⟩
      exact ⟨o, ho1, by simpa using ho2, rfl⟩
    · rintro ⟨o, ho, hid, rfl⟩
      exact List.mem_map.mpr ⟨o, List.mem_filter.mpr ⟨ho, by simpa using hid⟩, rfl⟩
  refine ⟨hmem, ?_⟩
  intro o ho hne hin
  rcases (hmem (populateOrder db.products o)).mp hin with ⟨o', -, hid', heq⟩
  have : (populateOrder db.products o).userId = c.id := by
    rw [heq]
    exact hid'
  exact hne this

theorem claim_C5_orders_scoped_witness :
    ((⟨1, some ⟨3, "p", 5, "c", "d", none⟩, 7, 2, "pending", 0⟩ : PopulatedOrder)
        ∈ [(⟨1, some ⟨3, "p", 5, "c", "d", none⟩, 7, 2, "pending", 0⟩ : PopulatedOrder)]) ∧
    ((⟨2, some ⟨3, "p", 5, "c", "d", none⟩, 8, 1, "pending", 0⟩ : PopulatedOrder)
        ∉ [(⟨1, some ⟨3, "p", 5, "c", "d", none⟩, 7, 2, "pending", 0⟩ : PopulatedOrder)]) := by
  have h := (claim_C5_orders_scoped
    (some ("Bearer " ++ generateToken 7 "bob" "s" 0)) "s" 1
    ⟨[], [⟨3, "p", 5, "c", "d", none⟩],
      [⟨1, 3, 7, 2, "pending", 0⟩, ⟨2, 3, 8, 1, "pending", 0⟩], 10⟩
    ⟨7, "bob"⟩ (by decide)).2.2
    [(⟨1, some ⟨3, "p", 5, "c", "d", none⟩, 7, 2, "pending", 0⟩ : PopulatedOrder)]
    (by decide)
  constructor
  · exact (h.1 _).mpr ⟨⟨1, 3, 7, 2, "pending", 0⟩, by decide, rfl, rfl⟩
  · exact h.2 ⟨2, 3, 8, 1, "pending", 0⟩ (by decide) (by decide)

theorem natChars_ne_nil (n : Nat) : natChars n ≠ [] := by
  rw [natChars_eq]
  split
  · simp
  · simp only [ne_eq, List.map_eq_nil_iff, List.reverse_eq_nil_iff]
    exact Nat.digits_ne_nil_iff_ne_zero.mpr (by assumption)

/-- A bcrypt hash is never the hashed plaintext itself (the stored string is
strictly longer). -/
theorem bcryptHash_ne_plaintext (salt : Nat) (p : String) :
    bcryptHash salt p ≠ p := by
  intro h
  have hlen := congrArg (fun s => s.data.length) h
  simp only [bcryptHash, List.length_append, List.length_cons] at hlen
  have hpos : 0 < (natChars salt).length :=
    List.length_pos.mpr (natChars_ne_nil salt)
  omega

theorem mergeUser_password_some (u : UserRec) (body : UserUpdateBody)
    (salt : Nat) (pw : String) (hpw : body.password = some pw) (hne : pw ≠ "") :
    (mergeUser u body salt).password = bcryptHash salt pw := by
  rcases hfile : body.file with _ | f <;>
    simp [mergeUser, hpw, hne, hfile]

theorem mergeUser_password_none (u : UserRec) (body : UserUpdateBody)
    (salt : Nat) (hpw : body.password = none) :
    (mergeUser u body salt).password = u.password := by
  rcases hfile : body.file with _ | f <;>
    simp [mergeUser, hpw, hfile]

/-- C6: after a successful registration the new record's password field is
the bcrypt hash of the supplied plaintext, never the plaintext; a user
update that (truthily) supplies a password stores its fresh bcrypt hash,
and one that supplies no password leaves the stored hash unchanged. -/
theorem claim_C6_password_hashed (body : RegisterBody) (salt : Nat) (db : DB) :
    (∀ u ∈ (register body salt db).2.users, u ∈ db.users ∨
      (u.password = bcryptHash salt body.password ∧
        u.password ≠ body.password)) ∧
    (∀ (id : Nat) (ub : UserUpdateBody) (salt2 st : Nat) (u' : UserRec)
        (db' : DB),
      usersUpdate id ub salt2 db = ((st, some u'), db') →
      (∀ v ∈ db'.users, v ∈ db.users ∨ v = u') ∧
      (∀ pw, ub.password = some pw → pw ≠ "" →
        u'.password = bcryptHash salt2 pw ∧ u'.password ≠ pw) ∧
      (ub.password = none → ∃ u0 ∈ db.users,
        u0._id = id ∧ u'.password = u0.password)) := by
  constructor
  · intro u hu
    rw [register] at hu
    split at hu
    · exact Or.inl hu
    · simp only [List.mem_append, List.mem_singleton] at hu
      rcases hu with hu | rfl
      · exact Or.inl hu
      · exact Or.inr ⟨rfl, bcryptHash_ne_plaintext salt body.password⟩
  · intro id ub salt2 st u' db' h
    rcases hf : db.users.find? (fun u => u._id == id) with _ | u0
    · rw [usersUpdate, hf] at h
      simp at h
    · have hu0mem : u0 ∈ db.users := List.mem_of_find?_eq_some hf
      have hu0id : u0._id = id := by
        have := List.find?_some hf
        simpa using this
      simp only [usersUpdate, hf] at h
      split at h
      · exact absurd (congrArg (fun p => p.1.2) h) (by simp)
      · simp only [Prod.mk.injEq, Option.some.injEq] at h
        obtain ⟨⟨-, hu'⟩, hdb⟩ := h
        refine ⟨?_, ?_, ?_⟩
        · intro v hv
          rw [← hdb] at hv
          simp only [List.mem_map] at hv
          rcases hv with ⟨x, hx, rfl⟩
          by_cases hid : x._id = id
          · right; simp [hid, hu']
          · left; simpa [hid] using hx
        · intro pw hpw hpwne
          rw [← hu', mergeUser_password_some u0 ub salt2 pw hpw hpwne]
          exact ⟨rfl, bcryptHash_ne_plaintext salt2 pw⟩
        · intro hnone
          refine ⟨u0, hu0mem, hu0id, ?_⟩
          rw [← hu', mergeUser_password_none u0 ub salt2 hnone]

theorem claim_C6_password_hashed_witness :
    ((⟨0, "alice", "a@x.com", bcryptHash 3 "pw1", none⟩ : UserRec)
        ∈ ([] : List UserRec) ∨
      ((⟨0, "alice", "a@x.com", bcryptHash 3 "pw1", none⟩ : UserRec).password
          = bcryptHash 3 "pw1" ∧
        (⟨0, "alice", "a@x.com", bcryptHash 3 "pw1", none⟩ : UserRec).password
          ≠ "pw1")) ∧
    (∃ u0 ∈ [(⟨0, "alice", "a@x.com", bcryptHash 3 "pw1", none⟩ : UserRec)],
      u0._id = 0 ∧
      (⟨0, "alice", "a@x.com", bcryptHash 3 "pw1", none⟩ : UserRec).password
        = u0.password) := by
  constructor
  · exact (claim_C6_password_hashed ⟨"alice", "a@x.com", "pw1", none⟩ 3
      ⟨[], [], [], 0⟩).1 ⟨0, "alice", "a@x.com", bcryptHash 3 "pw1", none⟩
      (by decide)
  · exact ((claim_C6_password_hashed ⟨"x", "y", "z", none⟩ 9
      ⟨[⟨0, "alice", "a@x.com", bcryptHash 3 "pw1", none⟩], [], [], 1⟩).2
      0 ⟨none, none, none, none⟩ 11 200
      ⟨0, "alice", "a@x.com", bcryptHash 3 "pw1", none⟩
      ⟨[⟨0, "alice", "a@x.com", bcryptHash 3 "pw1", none⟩], [], [], 1⟩
      (by decide)).2.2 rfl

/-- C7 counterexample: the claim says a supplied field always overwrites,
but the handler's `||`-merge drops falsy values.  Updating a product whose
description is `"old"` with the supplied field `description = ""` leaves the
description at `"old"` instead of setting it to `""`. -/
theorem claim_C7_counterexample :
    (productsUpdate 1 ⟨none, none, none, some "", none⟩
        ⟨[], [⟨1, "n", 5, "cat", "old", none⟩], [], 2⟩).1
      = (200, some ⟨1, "n", 5, "cat", "old", none⟩) ∧
    (productsUpdate 1 ⟨none, none, none, some "", none⟩
        ⟨[], [⟨1, "n", 5, "cat", "old", none⟩], [], 2⟩).1.2
      ≠ some ⟨1, "n", 5, "cat", "", none⟩ ∧
    ("old" : String) ≠ "" := by
  refine ⟨by decide, by decide, by decide⟩

theorem mergeProduct_name (p : ProductRec) (body : ProductUpdateBody) :
    (mergeProduct p body).name = jsOrS body.name p.name := by
  rcases hbi : body.image with _ | f <;> simp [mergeProduct, hbi]

theorem mergeProduct_price (p : ProductRec) (body : ProductUpdateBody) :
    (mergeProduct p body).price = jsOrI body.price p.price := by
  rcases hbi : body.image with _ | f <;> simp [mergeProduct, hbi]

theorem mergeProduct_category (p : ProductRec) (body : ProductUpdateBody) :
    (mergeProduct p body).category = jsOrS body.category p.category := by
  rcases hbi : body.image with _ | f <;> simp [mergeProduct, hbi]

theorem mergeProduct_description (p : ProductRec) (body : ProductUpdateBody) :
    (mergeProduct p body).description = jsOrS body.description p.description := by
  rcases hbi : body.image with _ | f <;> simp [mergeProduct, hbi]

theorem mergeProduct_id (p : ProductRec) (body : ProductUpdateBody) :
    (mergeProduct p body)._id = p._id := by
  rcases hbi : body.image with _ | f <;> simp [mergeProduct, hbi]

/-- C7 (amended): updating an existing product returns 200 and a record in
which each supplied field with a truthy value (non-empty string, non-zero
number, an uploaded image file) is overwritten and every other field —
unsupplied, or supplied with a falsy value such as `0` or the empty string —
keeps its prior value; in particular an update supplying only `price = 10`
sets the price to 10 and leaves name, category, description and image
unchanged. -/
theorem claim_C7_partial_merge (id : Nat) (body : ProductUpdateBody) (db : DB)
    (p : ProductRec)
    (hfind : db.products.find? (fun q => q._id == id) = some p) :
    (productsUpdate id body db).1.1 = 200 ∧
    (∀ p', (productsUpdate id body db).1.2 = some p' →
      p'._id = p._id ∧
      (∀ s, body.name = some s → s ≠ "" → p'.name = s) ∧
      (body.name = none ∨ body.name = some "" → p'.name = p.name) ∧
      (∀ n, body.price = some n → n ≠ 0 → p'.price = n) ∧
      (body.price = none ∨ body.price = some 0 → p'.price = p.price) ∧
      (∀ s, body.category = some s → s ≠ "" → p'.category = s) ∧
      (body.category = none ∨ body.category = some "" →
        p'.category = p.category) ∧
      (∀ s, body.description = some s → s ≠ "" → p'.description = s) ∧
      (body.description = none ∨ body.description = some "" →
        p'.description = p.description) ∧
      (∀ f, body.image = some f → p'.image = some f) ∧
      (body.image = none → p'.image = p.image)) ∧
    (∀ (pid : Nat) (q : ProductRec),
      db.products.find? (fun x => x._id == pid) = some q →
      (productsUpdate pid ⟨none, some 10, none, none, none⟩ db).1
        = (200, some ⟨q._id, q.name, 10, q.category, q.description, q.image⟩)) := by
  refine ⟨by simp [productsUpdate, hfind], ?_, ?_⟩
  · intro p' hp'
    simp only [productsUpdate, hfind, Option.some.injEq] at hp'
    subst hp'
    refine ⟨mergeProduct_id p body, ?_, ?_, ?_, ?_, ?_, ?_, ?_, ?_, ?_, ?_⟩
    · intro s hs hne
      rw [mergeProduct_name, hs]
      simp [jsOrS, hne]
    · intro h
      rw [mergeProduct_name]
      rcases h with h | h <;> simp [jsOrS, h]
    · intro n hn hne
      rw [mergeProduct_price, hn]
      simp [jsOrI, hne]
    · intro h
      rw [mergeProduct_price]
      rcases h with h | h <;> simp [jsOrI, h]
    · intro s hs hne
      rw [mergeProduct_category, hs]
      simp [jsOrS, hne]
    · intro h
      rw [mergeProduct_category]
      rcases h with h | h <;> simp [jsOrS, h]
    · intro s hs hne
      rw [mergeProduct_description, hs]
      simp [jsOrS, hne]
    · intro h
      rw [mergeProduct_description]
      rcases h with h | h <;> simp [jsOrS, h]
    · intro f hf
      simp [mergeProduct, hf]
    · intro hf
      simp [mergeProduct, hf]
  · intro pid q hq
    rcases q with ⟨qid, qn, qp, qc, qd, qi⟩
    simp [productsUpdate, hq, mergeProduct, jsOrS, jsOrI]

theorem claim_C7_partial_merge_witness :
    (⟨1, "New", 5, "cat", "old", none⟩ : ProductRec).name = "New" ∧
    (⟨1, "New", 5, "cat", "old", none⟩ : ProductRec).description = "old" := by
  have h := (claim_C7_partial_merge 1 ⟨some "New", none, none, some "", none⟩
    ⟨[], [⟨1, "Nm", 5, "cat", "old", none⟩], [], 2⟩
    ⟨1, "Nm", 5, "cat", "old", none⟩ (by decide)).2.1
    ⟨1, "New", 5, "cat", "old", none⟩ (by decide)
  exact ⟨h.2.1 "New" rfl (by decide),
    h.2.2.2.2.2.2.2.2.1 (Or.inr rfl)⟩

/-- Substring containment of `needle` in `haystack` (at some position the
needle is a prefix of the remaining haystack). -/
def containsSub (needle : List Char) : List Char → Bool
  | [] => needle.isPrefixOf []
  | c :: cs => needle.isPrefixOf (c :: cs) || containsSub needle cs

/-- Stated from the spec's words (refinement reference, not from the code):
"case-insensitive substring match on name" — `q` occurs in `name` up to
case. -/
def specNameContains (q name : String) : Bool :=
  containsSub (q.data.map Char.toLower) (name.data.map Char.toLower)

theorem rxMatchPrefix_lits (l : List Char) :
    ∀ t : List Char, rxMatchPrefix (l.map RItem.lit) t
      = (l.map Char.toLower).isPrefixOf (t.map Char.toLower) := by
  induction l with
  | nil => intro t; cases t <;> rfl
  | cons c cs ih =>
      intro t
      cases t with
      | nil => rfl
      | cons d ds =>
          simp only [List.map_cons, rxMatchPrefix, rxMatchItem,
            List.isPrefixOf_cons₂, ih ds]

theorem rxSearch_lits (l : List Char) (t : List Char) :
    rxSearch (l.map RItem.lit) t
      = containsSub (l.map Char.toLower) (t.map Char.toLower) := by
  induction t with
  | nil => simp only [rxSearch, containsSub, rxMatchPrefix_lits, List.map_nil]
  | cons c cs ih =>
      simp only [rxSearch, containsSub, rxMatchPrefix_lits, List.map_cons, ih]

theorem rxCompile_all_lit {l : List Char}
    (h : ∀ c ∈ l, c ≠ '.' ∧ c ∉ rxMeta) :
    rxCompile l = some (l.map RItem.lit) := by
  induction l with
  | nil => rfl
  | cons c cs ih =>
      have hc := h c (List.mem_cons_self c cs)
      have hcs := ih fun x hx => h x (List.mem_cons_of_mem c hx)
      simp only [rxCompile, if_neg hc.1, if_neg hc.2, hcs, List.map_cons]
      rfl

theorem mongoRegexMatchI_all_lit (q name : String)
    (h : ∀ c ∈ q.data, c ≠ '.' ∧ c ∉ rxMeta) :
    mongoRegexMatchI q name = specNameContains q name := by
  rw [mongoRegexMatchI, rxCompile_all_lit h]
  exact rxSearch_lits q.data name.data

/-- C8 counterexample: the claim reads the query as a literal substring, but
the handler passes it to `$regex`.  With the one-product store `[{name :=
"abc"}]` and query `"."` the endpoint returns the product (PCRE `.` matches
any character) although `"abc"` does not contain `"."` as a substring. -/
theorem claim_C8_counterexample :
    (productsIndex (some ".") ⟨[], [⟨1, "abc", 5, "c", "d", none⟩], [], 2⟩).2
      = [⟨1, "abc", 5, "c", "d", none⟩] ∧
    specNameContains "." "abc" = false := by
  refine ⟨by decide, by decide⟩

/-- C8 (amended): with no query parameter (or an empty one) all products are
returned unfiltered; a nonempty query is interpreted as a case-insensitive
regular expression over the name, which coincides with case-insensitive
substring containment exactly when the query contains no regex
metacharacters (no `.` wildcard in particular). -/
theorem claim_C8_catalog_filter (db : DB) (q : String) (hne : q ≠ "")
    (hlit : ∀ c ∈ q.data, c ≠ '.' ∧ c ∉ rxMeta) :
    productsIndex none db = (200, db.products) ∧
    productsIndex (some "") db = (200, db.products) ∧
    productsIndex (some q) db
      = (200, db.products.filter (fun p => specNameContains q p.name)) := by
  refine ⟨rfl, rfl, ?_⟩
  rw [productsIndex, if_neg hne]
  congr 1
  apply List.filter_congr
  intro p hp
  exact mongoRegexMatchI_all_lit q p.name hlit

theorem claim_C8_catalog_filter_witness :
    productsIndex (some "b")
        ⟨[], [⟨1, "ABC", 5, "c", "d", none⟩, ⟨2, "xyz", 6, "c", "d", none⟩], [], 3⟩
      = (200, [⟨1, "ABC", 5, "c", "d", none⟩]) :=
  ((claim_C8_catalog_filter
    ⟨[], [⟨1, "ABC", 5, "c", "d", none⟩, ⟨2, "xyz", 6, "c", "d", none⟩], [], 3⟩
    "b" (by decide) (by decide)).2.2).trans (by decide)

/-- C9: the two failing-login runs are indistinguishable — a login whose
email matches no user and a login whose email matches but whose password
fails verification produce the identical response: status 400, the same
message, and no token. -/
theorem claim_C9_login_indistinguishable (db1 db2 : DB)
    (e1 p1 e2 p2 secret1 secret2 : String) (now1 now2 : Nat) (u2 : UserRec)
    (h1 : ∀ u ∈ db1.users, u.email ≠ e1)
    (h2 : db2.users.find? (fun u => u.email == e2) = some u2)
    (h2c : bcryptCompare p2 u2.password = false) :
    login e1 p1 secret1 now1 db1 = login e2 p2 secret2 now2 db2 ∧
    login e1 p1 secret1 now1 db1 = (400, "Invalid email or password", none) := by
  have hf : db1.users.find? (fun u => u.email == e1) = none := by
    rw [List.find?_eq_none]
    intro u hu
    simp [h1 u hu]
  constructor <;> simp [login, hf, h2, h2c]

theorem claim_C9_login_indistinguishable_witness :
    login "a@x.com" "z" "s1" 0 ⟨[], [], [], 0⟩
      = login "b@x.com" "wrong" "s2" 9
          ⟨[⟨1, "bob", "b@x.com", bcryptHash 2 "right", none⟩], [], [], 2⟩ :=
  (claim_C9_login_indistinguishable ⟨[], [], [], 0⟩
    ⟨[⟨1, "bob", "b@x.com", bcryptHash 2 "right", none⟩], [], [], 2⟩
    "a@x.com" "z" "b@x.com" "wrong" "s1" "s2" 0 9
    ⟨1, "bob", "b@x.com", bcryptHash 2 "right", none⟩
    (by intro u hu; simp at hu) (by decide) (by decide)).1

/-- C10: the user read endpoints serialize the full stored record — the
response of `GET /api/users` contains, for every stored user, its serialized
record carrying the `password` key with the stored hash verbatim, and
`GET /api/users/:id` likewise returns the full serialized record; no field
is dropped before serialization. -/
theorem claim_C10_password_exposed (db : DB) :
    (usersIndex db).1 = 200 ∧
    (usersIndex db).2 = db.users.map serializeUser ∧
    (∀ u ∈ db.users,
      serializeUser u ∈ (usersIndex db).2 ∧
      ("password", JVal.str u.password) ∈ serializeUser u ∧
      ("username", JVal.str u.username) ∈ serializeUser u ∧
      ("email", JVal.str u.email) ∈ serializeUser u ∧
      ("_id", JVal.num (u._id : Int)) ∈ serializeUser u) ∧
    (∀ (id : Nat) (u : UserRec),
      db.users.find? (fun v => v._id == id) = some u →
      userShow id db = (200, some (serializeUser u)) ∧
      ("password", JVal.str u.password) ∈ serializeUser u) := by
  refine ⟨rfl, rfl, ?_, ?_⟩
  · intro u hu
    exact ⟨List.mem_map.mpr ⟨u, hu, rfl⟩, by simp [serializeUser],
      by simp [serializeUser], by simp [serializeUser], by simp [serializeUser]⟩
  · intro id u hfind
    exact ⟨by rw [userShow, hfind], by simp [serializeUser]⟩

theorem claim_C10_password_exposed_witness :
    userShow 1 ⟨[⟨1, "bob", "b@x.com", bcryptHash 2 "pw", none⟩], [], [], 2⟩
      = (200, some (serializeUser ⟨1, "bob", "b@x.com", bcryptHash 2 "pw", none⟩)) ∧
    ("password", JVal.str (bcryptHash 2 "pw"))
      ∈ serializeUser ⟨1, "bob", "b@x.com", bcryptHash 2 "pw", none⟩ :=
  (claim_C10_password_exposed
    ⟨[⟨1, "bob", "b@x.com", bcryptHash 2 "pw", none⟩], [], [], 2⟩).2.2.2
    1 ⟨1, "bob", "b@x.com", bcryptHash 2 "pw", none⟩ (by decide)

end ServerBack
